import Mathlib

/-!
# Verification of the HTTP request-line parser (degatchi/http-server-rs)

Shallow embedding of `src/http/request.rs`.  Rust strings (`&str`) are
modelled as `List Char`; Rust byte buffers (`&[u8]`) as `List Nat` (each
entry a byte value).  Rust's byte-indexed string slicing, which panics when
the index is not on a UTF-8 character boundary, is modelled by partial
slicing functions returning `Option`, and a panic is an explicit `PanicOr.panic`
outcome.
-/

/-- Outcome of Rust code that can panic: either a panic (index out of bounds /
not on a char boundary) or a normal value. -/
inductive PanicOr (α : Type) where
  | panic : PanicOr α
  | ok : α → PanicOr α
deriving DecidableEq

/-- ParseError from `src/http/request.rs` (closed four-kind taxonomy). -/
inductive ParseError where
  | InvalidRequest
  | InvalidEncoding
  | InvalidProtocol
  | InvalidMethod
deriving DecidableEq

/-- The HTTP verb set.  Modelled from the spec: `src/http/method.rs` is not
among the provided sources; §3 and §4.3 of the spec give the closed set
GET, POST, PUT, DELETE, HEAD, CONNECT, OPTIONS, TRACE, PATCH. -/
inductive Method where
  | GET
  | POST
  | PUT
  | DELETE
  | HEAD
  | CONNECT
  | OPTIONS
  | TRACE
  | PATCH
deriving DecidableEq

/-- Modelled from the spec: `Method::from_str` lives in `src/http/method.rs`,
which is not among the provided sources.  §4.3: exact case-sensitive match of
the token against the canonical verb spellings; any other token is a
`MethodError` (here `none`), which the request parser converts to
`ParseError.InvalidMethod`. -/
def methodFromStr (s : List Char) : Option Method :=
  if s = "GET".toList then some .GET
  else if s = "POST".toList then some .POST
  else if s = "PUT".toList then some .PUT
  else if s = "DELETE".toList then some .DELETE
  else if s = "HEAD".toList then some .HEAD
  else if s = "CONNECT".toList then some .CONNECT
  else if s = "OPTIONS".toList then some .OPTIONS
  else if s = "TRACE".toList then some .TRACE
  else if s = "PATCH".toList then some .PATCH
  else none

/-- QueryStringValue from `src/http/query_string.rs` (not under the provided
sources).  Modelled from the spec: `Single` for a key seen once, `Multiple`
for a key seen more than once, values in encounter order. -/
inductive QueryStringValue where
  | Single : List Char → QueryStringValue
  | Multiple : List (List Char) → QueryStringValue
deriving DecidableEq

/-- QueryString from `src/http/query_string.rs` (not under the provided
sources).  Modelled from the spec: a mapping from parameter name to
`QueryStringValue`, keys unique; represented as an association list in key
encounter order. -/
structure QueryString where
  data : List (List Char × QueryStringValue)
deriving DecidableEq

/-- Modelled from the spec (§4.2): insert one `(key, value)` pair into the
mapping.  New key stores `Single value`; a key present as `Single v0` becomes
`Multiple [v0, value]`; a key present as `Multiple l` appends `value`. -/
def qsAdd : List (List Char × QueryStringValue) → List Char → List Char →
    List (List Char × QueryStringValue)
  | [], k, v => [(k, QueryStringValue.Single v)]
  | (k0, v0) :: rest, k, v =>
    if k0 = k then
      match v0 with
      | QueryStringValue.Single w => (k0, QueryStringValue.Multiple [w, v]) :: rest
      | QueryStringValue.Multiple ws => (k0, QueryStringValue.Multiple (ws ++ [v])) :: rest
    else (k0, v0) :: qsAdd rest k v

/-- Modelled from the spec (§4.2): split the query text on `&` into candidate
pairs, left to right.  Splitting the empty string yields one empty pair, as
Rust's `str::split` does. -/
def splitOnAmp : List Char → List (List Char)
  | [] => [[]]
  | c :: cs =>
    if c = '&' then [] :: splitOnAmp cs
    else
      match splitOnAmp cs with
      | p :: ps => (c :: p) :: ps
      | [] => [[c]]

/-- Modelled from the spec (§4.2): split one candidate pair on the first `=`;
when no `=` is present the whole pair is the key and the value is empty. -/
def splitFirstEq : List Char → List Char × List Char
  | [] => ([], [])
  | c :: cs =>
    if c = '=' then ([], cs)
    else
      let kv := splitFirstEq cs
      (c :: kv.1, kv.2)

/-- Modelled from the spec: `QueryString::from` of `src/http/query_string.rs`
(not among the provided sources).  §4.2: split on `&`, split each pair on the
first `=`, accumulate with the `Single`/`Multiple` policy.  No failure mode. -/
def queryStringFrom (s : List Char) : QueryString :=
  ⟨(splitOnAmp s).foldl (fun m p => qsAdd m (splitFirstEq p).1 (splitFirstEq p).2) []⟩

/-- Request from `src/http/request.rs`: path, optional query string, method. -/
structure Request where
  path : List Char
  query_string : Option QueryString
  method : Method
deriving DecidableEq

/-- Rust's `&s[..n]` on a string slice, with `n` a byte index: the characters
occupying bytes `0..n`, or `none` (a panic) when `n` is out of bounds or not
on a character boundary. -/
def sliceTo (s : List Char) (n : Nat) : Option (List Char) :=
  if n = 0 then some []
  else
    match s with
    | [] => none
    | c :: cs =>
      if c.utf8Size ≤ n then (sliceTo cs (n - c.utf8Size)).map (fun t => c :: t)
      else none

/-- Rust's `&s[n..]` on a string slice, with `n` a byte index: the characters
from byte `n` on, or `none` (a panic) when `n` is out of bounds or not on a
character boundary. -/
def sliceFrom (s : List Char) (n : Nat) : Option (List Char) :=
  if n = 0 then some s
  else
    match s with
    | [] => none
    | c :: cs =>
      if c.utf8Size ≤ n then sliceFrom cs (n - c.utf8Size)
      else none

/-- The loop of `get_next_word`: `for (i, c) in request.chars().enumerate()`.
`i` counts characters (Rust's `enumerate`), but is used as a byte index in
`&request[..i]` and `&request[i + 1..]`. -/
def gnwLoop (request : List Char) : List Char → Nat → PanicOr (Option (List Char × List Char))
  | [], _ => .ok none
  | c :: cs, i =>
    if c = ' ' ∨ c = '\r' then
      match sliceTo request i, sliceFrom request (i + 1) with
      | some a, some b => .ok (some (a, b))
      | _, _ => .panic
    else gnwLoop request cs (i + 1)

/-- Function `get_next_word` from `src/http/request.rs`: scan for the first space or
carriage return; on a hit return `(&request[..i], &request[i + 1..])` where
`i` is the character index delivered by `enumerate`. -/
def get_next_word (request : List Char) : PanicOr (Option (List Char × List Char)) :=
  gnwLoop request request 0

/-- Rust's `str::find(c)`: byte index of the first occurrence of `c`. -/
def findChar (c : Char) : List Char → Option Nat
  | [] => none
  | x :: xs => if x = c then some 0 else (findChar c xs).map (fun n => x.utf8Size + n)

/-- UTF-8 validation and decoding, as Rust's `str::from_utf8`: strict UTF-8
(continuation bytes in range, no overlong forms, no surrogates, maximum
U+10FFFF); `none` exactly when the bytes are not valid UTF-8. -/
def utf8Decode : List Nat → Option (List Char)
  | [] => some []
  | b :: bs =>
    if b < 0x80 then
      (utf8Decode bs).map (fun cs => Char.ofNat b :: cs)
    else if b < 0xC2 then none
    else if b < 0xE0 then
      match bs with
      | b1 :: bs1 =>
        if 0x80 ≤ b1 ∧ b1 < 0xC0 then
          (utf8Decode bs1).map (fun cs =>
            Char.ofNat ((b - 0xC0) * 0x40 + (b1 - 0x80)) :: cs)
        else none
      | [] => none
    else if b < 0xF0 then
      match bs with
      | b1 :: b2 :: bs2 =>
        if (if b = 0xE0 then 0xA0 ≤ b1 ∧ b1 < 0xC0
            else if b = 0xED then 0x80 ≤ b1 ∧ b1 < 0xA0
            else 0x80 ≤ b1 ∧ b1 < 0xC0) ∧ 0x80 ≤ b2 ∧ b2 < 0xC0 then
          (utf8Decode bs2).map (fun cs =>
            Char.ofNat ((b - 0xE0) * 0x1000 + (b1 - 0x80) * 0x40 + (b2 - 0x80)) :: cs)
        else none
      | _ => none
    else if b < 0xF5 then
      match bs with
      | b1 :: b2 :: b3 :: bs3 =>
        if (if b = 0xF0 then 0x90 ≤ b1 ∧ b1 < 0xC0
            else if b = 0xF4 then 0x80 ≤ b1 ∧ b1 < 0x90
            else 0x80 ≤ b1 ∧ b1 < 0xC0) ∧ (0x80 ≤ b2 ∧ b2 < 0xC0) ∧
            0x80 ≤ b3 ∧ b3 < 0xC0 then
          (utf8Decode bs3).map (fun cs =>
            Char.ofNat ((b - 0xF0) * 0x40000 + (b1 - 0x80) * 0x1000 +
              (b2 - 0x80) * 0x40 + (b3 - 0x80)) :: cs)
        else none
      | _ => none
    else none

/-- Function `Request::try_from(&[u8])` from `src/http/request.rs`:
UTF-8 decode, three `get_next_word` scans (method, path, protocol), protocol
equality check, method parse, then split of the path at the first `?`. -/
def Request.tryFrom (buf : List Nat) : PanicOr (Except ParseError Request) :=
  match utf8Decode buf with
  | none => .ok (.error .InvalidEncoding)
  | some request =>
    match get_next_word request with
    | .panic => .panic
    | .ok none => .ok (.error .InvalidRequest)
    | .ok (some (method, request1)) =>
      match get_next_word request1 with
      | .panic => .panic
      | .ok none => .ok (.error .InvalidRequest)
      | .ok (some (path, request2)) =>
        match get_next_word request2 with
        | .panic => .panic
        | .ok none => .ok (.error .InvalidRequest)
        | .ok (some (protocol, _)) =>
          if protocol = "HTTP/1.1".toList then
            match methodFromStr method with
            | none => .ok (.error .InvalidMethod)
            | some m =>
              match findChar '?' path with
              | some i =>
                match sliceFrom path (i + 1), sliceTo path i with
                | some qs, some p =>
                  .ok (.ok ⟨p, some (queryStringFrom qs), m⟩)
                | _, _ => .panic
              | none => .ok (.ok ⟨path, none, m⟩)
          else .ok (.error .InvalidProtocol)

deriving instance DecidableEq for Except

/-- Byte buffer of an ASCII string (each character is one byte). -/
def asciiOf (s : String) : List Nat :=
  s.toList.map (fun c => c.toNat)

/-- The text is exhausted before three delimiter-terminated tokens are
scanned: one of the three chained `get_next_word` calls returns `none`
(without panicking). -/
def scanFails (s : List Char) : Prop :=
  get_next_word s = .ok none ∨
    ∃ t1 r1, get_next_word s = .ok (some (t1, r1)) ∧
      (get_next_word r1 = .ok none ∨
        ∃ t2 r2, get_next_word r1 = .ok (some (t2, r2)) ∧ get_next_word r2 = .ok none)

example : "GET".toList = ['G', 'E', 'T'] := by decide
example : get_next_word "GET /x\r\n".toList = .ok (some ("GET".toList, "/x\r\n".toList)) := by decide
example : Request.tryFrom (asciiOf "GET /a/b HTTP/1.1\r\n") =
    .ok (.ok ⟨"/a/b".toList, none, .GET⟩) := by decide
example : Request.tryFrom [0xC3, 0xA9, 0x20] = .panic := by decide
example : Request.tryFrom [0xFF] = .ok (.error .InvalidEncoding) := by decide
example : get_next_word "¢a b".toList = .ok (some ("¢".toList, " b".toList)) := by decide

/-! ## Helper lemmas -/

theorem tryFrom_of_decode_none (buf : List Nat) (h : utf8Decode buf = none) :
    Request.tryFrom buf = .ok (.error .InvalidEncoding) := by
  simp [Request.tryFrom, h]

theorem tryFrom_of_scanFails (buf : List Nat) (s : List Char)
    (hd : utf8Decode buf = some s) (hf : scanFails s) :
    Request.tryFrom buf = .ok (.error .InvalidRequest) := by
  rcases hf with h1 | ⟨t1, r1, h1, h2 | ⟨t2, r2, h2, h3⟩⟩
  · simp [Request.tryFrom, hd, h1]
  · simp [Request.tryFrom, hd, h1, h2]
  · simp [Request.tryFrom, hd, h1, h2, h3]

theorem tryFrom_of_protocol_ne (buf : List Nat) (s t1 r1 t2 r2 t3 r3 : List Char)
    (hd : utf8Decode buf = some s)
    (h1 : get_next_word s = .ok (some (t1, r1)))
    (h2 : get_next_word r1 = .ok (some (t2, r2)))
    (h3 : get_next_word r2 = .ok (some (t3, r3)))
    (hne : t3 ≠ "HTTP/1.1".toList) :
    Request.tryFrom buf = .ok (.error .InvalidProtocol) := by
  simp only [Request.tryFrom, hd, h1, h2, h3]
  rw [if_neg hne]

/-! ## Claims -/

/-- Claim C1 (code bug): the claim states that `Request::try_from` never
panics and that all string slicing stays in bounds and on character
boundaries for every input, including multi-byte UTF-8.  The code violates
this: `get_next_word` obtains `i` from `chars().enumerate()` (a character
index) but slices `&request[..i]` by byte index.  On the input bytes
`[0xC3, 0xA9, 0x20]` (the text `"é "`), the delimiter is at character index 1
while the first character occupies two bytes, so the slice is not on a
character boundary and the Rust code panics. -/
theorem tryFrom_panics_on_multibyte :
    Request.tryFrom [0xC3, 0xA9, 0x20] = PanicOr.panic := by decide

/-- Claim C2 (code bug): the claim states that `get_next_word` returns the
substring strictly before the first space/carriage-return and the remainder
strictly after it, also for strings with multi-byte characters before the
delimiter.  On `"¢a b"` (`'¢'` is two bytes) the delimiter `' '` has
character index 2 but byte index 3, so the code returns `("¢", " b")`
instead of the claimed `("¢a", "b")`. -/
theorem get_next_word_multibyte_wrong :
    get_next_word "¢a b".toList = .ok (some ("¢".toList, " b".toList)) ∧
    ("¢".toList, " b".toList) ≠ ("¢a".toList, "b".toList) := by decide

/-- Claim C7: whenever decoding succeeds and one of the three chained
`get_next_word` scans finds no delimiter (the text is exhausted before
method, path, and protocol tokens are all terminated), parsing fails with
`InvalidRequest`. -/
theorem tryFrom_invalid_request (buf : List Nat) (s : List Char)
    (hd : utf8Decode buf = some s) (hf : scanFails s) :
    Request.tryFrom buf = .ok (.error .InvalidRequest) :=
  tryFrom_of_scanFails buf s hd hf

/-- Witness for C7 at the spec's concrete input `"GET /x\r\n"`, which lacks a
protocol token. -/
theorem tryFrom_invalid_request_witness :
    Request.tryFrom (asciiOf "GET /x\r\n") = .ok (.error .InvalidRequest) :=
  tryFrom_invalid_request (asciiOf "GET /x\r\n") "GET /x\r\n".toList (by decide)
    (Or.inr ⟨"GET".toList, "/x\r\n".toList, by decide,
      Or.inr ⟨"/x".toList, "\n".toList, by decide, by decide⟩⟩)

/-- Claim C6: whenever the three scans succeed and the third token is not
exactly `HTTP/1.1`, parsing fails with `InvalidProtocol`; the comparison is
strict string equality. -/
theorem tryFrom_invalid_protocol (buf : List Nat) (s t1 r1 t2 r2 t3 r3 : List Char)
    (hd : utf8Decode buf = some s)
    (h1 : get_next_word s = .ok (some (t1, r1)))
    (h2 : get_next_word r1 = .ok (some (t2, r2)))
    (h3 : get_next_word r2 = .ok (some (t3, r3)))
    (hne : t3 ≠ "HTTP/1.1".toList) :
    Request.tryFrom buf = .ok (.error .InvalidProtocol) :=
  tryFrom_of_protocol_ne buf s t1 r1 t2 r2 t3 r3 hd h1 h2 h3 hne

/-- Witness for C6 at the spec's concrete input `"GET /x FTP/1.0\r\n"` and at
the claim's `HTTP/1.0` case. -/
theorem tryFrom_invalid_protocol_witness :
    Request.tryFrom (asciiOf "GET /x FTP/1.0\r\n") = .ok (.error .InvalidProtocol) ∧
    Request.tryFrom (asciiOf "GET /x HTTP/1.0\r\n") = .ok (.error .InvalidProtocol) :=
  ⟨tryFrom_invalid_protocol (asciiOf "GET /x FTP/1.0\r\n")
    "GET /x FTP/1.0\r\n".toList "GET".toList "/x FTP/1.0\r\n".toList
    "/x".toList "FTP/1.0\r\n".toList "FTP/1.0".toList "\n".toList
    (by decide) (by decide) (by decide) (by decide) (by decide),
   tryFrom_invalid_protocol (asciiOf "GET /x HTTP/1.0\r\n")
    "GET /x HTTP/1.0\r\n".toList "GET".toList "/x HTTP/1.0\r\n".toList
    "/x".toList "HTTP/1.0\r\n".toList "HTTP/1.0".toList "\n".toList
    (by decide) (by decide) (by decide) (by decide) (by decide)⟩

/-- Claim C8: parsing is a deterministic pure function of the input buffer:
equal byte buffers yield equal outcomes. -/
theorem tryFrom_deterministic (b1 b2 : List Nat) (h : b1 = b2) :
    Request.tryFrom b1 = Request.tryFrom b2 := by rw [h]

/-- Witness for C8 at a concrete buffer. -/
theorem tryFrom_deterministic_witness :
    Request.tryFrom (asciiOf "GET / HTTP/1.1\r\n") =
      Request.tryFrom (asciiOf "GET / HTTP/1.1\r\n") :=
  tryFrom_deterministic (asciiOf "GET / HTTP/1.1\r\n") (asciiOf "GET / HTTP/1.1\r\n") rfl

/-- Claim C9: the parser does not validate that the path token is non-empty:
`"GET  HTTP/1.1\r\n"` (two consecutive spaces) parses successfully into a
Request whose path is the empty string. -/
theorem tryFrom_empty_path_ok :
    Request.tryFrom (asciiOf "GET  HTTP/1.1\r\n") =
      .ok (.ok ⟨[], none, .GET⟩) := by decide

/-- Claim C10: a path token ending in `?` (`"GET /x? HTTP/1.1\r\n"`) parses
successfully with path `"/x"` and a query string that is present and built
from the empty string. -/
theorem tryFrom_trailing_question_mark :
    Request.tryFrom (asciiOf "GET /x? HTTP/1.1\r\n") =
      .ok (.ok ⟨"/x".toList, some (queryStringFrom []), .GET⟩) := by decide

/-- Claim C5: every input whose decoded text is `"GET /a/b HTTP/1.1\r\n"`
followed by arbitrary further text parses successfully and yields method GET,
path `"/a/b"`, and an absent query string. -/
theorem tryFrom_get_ab (buf : List Nat) (rest : List Char)
    (h : utf8Decode buf = some ("GET /a/b HTTP/1.1\r\n".toList ++ rest)) :
    Request.tryFrom buf = .ok (.ok ⟨"/a/b".toList, none, .GET⟩) := by
  have hl : "GET /a/b HTTP/1.1\r\n".toList =
      ['G', 'E', 'T', ' ', '/', 'a', '/', 'b', ' ',
       'H', 'T', 'T', 'P', '/', '1', '.', '1', '\r', '\n'] := by decide
  rw [hl] at h
  simp +decide [Request.tryFrom, h, get_next_word, gnwLoop, sliceTo, sliceFrom,
    methodFromStr, findChar]

/-- Witness for C5 with trailing header text after the request line. -/
theorem tryFrom_get_ab_witness :
    Request.tryFrom (asciiOf "GET /a/b HTTP/1.1\r\nHost: x") =
      .ok (.ok ⟨"/a/b".toList, none, .GET⟩) :=
  tryFrom_get_ab (asciiOf "GET /a/b HTTP/1.1\r\nHost: x") "Host: x".toList (by decide)

theorem tryFrom_invalidMethod_inv (buf : List Nat)
    (h : Request.tryFrom buf = .ok (.error .InvalidMethod)) :
    ∃ s t1 r1 t2 r2 t3 r3, utf8Decode buf = some s ∧
      get_next_word s = .ok (some (t1, r1)) ∧
      get_next_word r1 = .ok (some (t2, r2)) ∧
      get_next_word r2 = .ok (some (t3, r3)) ∧
      t3 = "HTTP/1.1".toList ∧ methodFromStr t1 = none := by
  unfold Request.tryFrom at h
  cases hd : utf8Decode buf with
  | none => rw [hd] at h; simp at h
  | some s =>
  rw [hd] at h; simp only [] at h
  cases h1 : get_next_word s with
  | panic => rw [h1] at h; simp at h
  | ok o1 =>
  rw [h1] at h
  cases o1 with
  | none => simp at h
  | some p1 =>
  obtain ⟨t1, r1⟩ := p1
  simp only [] at h
  cases h2 : get_next_word r1 with
  | panic => rw [h2] at h; simp at h
  | ok o2 =>
  rw [h2] at h
  cases o2 with
  | none => simp at h
  | some p2 =>
  obtain ⟨t2, r2⟩ := p2
  simp only [] at h
  cases h3 : get_next_word r2 with
  | panic => rw [h3] at h; simp at h
  | ok o3 =>
  rw [h3] at h
  cases o3 with
  | none => simp at h
  | some p3 =>
  obtain ⟨t3, r3⟩ := p3
  simp only [] at h
  by_cases hp : t3 = "HTTP/1.1".toList
  · rw [if_pos hp] at h
    cases hm : methodFromStr t1 with
    | none => exact ⟨s, t1, r1, t2, r2, t3, r3, rfl, h1, h2, h3, hp, hm⟩
    | some m =>
      rw [hm] at h; simp only [] at h
      cases hf : findChar '?' t2 with
      | none => rw [hf] at h; simp at h
      | some i =>
        rw [hf] at h; simp only [] at h
        cases hq : sliceFrom t2 (i + 1) with
        | none =>
          rw [hq] at h
          cases hp2 : sliceTo t2 i <;> (rw [hp2] at h; simp at h)
        | some qs =>
          rw [hq] at h
          cases hp2 : sliceTo t2 i <;> (rw [hp2] at h; simp at h)
  · rw [if_neg hp] at h; simp at h

/-- Claim C3: the parse short-circuits in fixed order.  (1) If the bytes are
not valid UTF-8 the result is `InvalidEncoding` regardless of structure.
(2) If decoding succeeds but the scans yield fewer than three
delimiter-terminated tokens, the result is `InvalidRequest` regardless of the
token contents.  (3) If three tokens are scanned and the third is not
`HTTP/1.1`, the result is `InvalidProtocol`, with no condition on the method
token.  (4) `InvalidMethod` is returned only when all the earlier checks
passed: decoding succeeded, three tokens were scanned, the protocol token is
exactly `HTTP/1.1`, and then the method token failed to parse. -/
theorem tryFrom_error_priority :
    (∀ buf : List Nat, utf8Decode buf = none →
      Request.tryFrom buf = .ok (.error .InvalidEncoding)) ∧
    (∀ (buf : List Nat) (s : List Char), utf8Decode buf = some s → scanFails s →
      Request.tryFrom buf = .ok (.error .InvalidRequest)) ∧
    (∀ (buf : List Nat) (s t1 r1 t2 r2 t3 r3 : List Char),
      utf8Decode buf = some s →
      get_next_word s = .ok (some (t1, r1)) →
      get_next_word r1 = .ok (some (t2, r2)) →
      get_next_word r2 = .ok (some (t3, r3)) →
      t3 ≠ "HTTP/1.1".toList →
      Request.tryFrom buf = .ok (.error .InvalidProtocol)) ∧
    (∀ buf : List Nat, Request.tryFrom buf = .ok (.error .InvalidMethod) →
      ∃ s t1 r1 t2 r2 t3 r3, utf8Decode buf = some s ∧
        get_next_word s = .ok (some (t1, r1)) ∧
        get_next_word r1 = .ok (some (t2, r2)) ∧
        get_next_word r2 = .ok (some (t3, r3)) ∧
        t3 = "HTTP/1.1".toList ∧ methodFromStr t1 = none) :=
  ⟨tryFrom_of_decode_none,
   tryFrom_of_scanFails,
   tryFrom_of_protocol_ne,
   tryFrom_invalidMethod_inv⟩

/-- Witness for C3: one concrete input for each of the four priority facts. -/
theorem tryFrom_error_priority_witness :
    Request.tryFrom [0x80] = .ok (.error .InvalidEncoding) ∧
    Request.tryFrom (asciiOf "GETX") = .ok (.error .InvalidRequest) ∧
    Request.tryFrom (asciiOf "FOO /y FTP/1.0\r\n") = .ok (.error .InvalidProtocol) ∧
    (∃ s t1 r1 t2 r2 t3 r3, utf8Decode (asciiOf "FOO /x HTTP/1.1\r\n") = some s ∧
      get_next_word s = .ok (some (t1, r1)) ∧
      get_next_word r1 = .ok (some (t2, r2)) ∧
      get_next_word r2 = .ok (some (t3, r3)) ∧
      t3 = "HTTP/1.1".toList ∧ methodFromStr t1 = none) :=
  ⟨tryFrom_error_priority.1 [0x80] (by decide),
   tryFrom_error_priority.2.1 (asciiOf "GETX") "GETX".toList (by decide)
     (Or.inl (by decide)),
   tryFrom_error_priority.2.2.1 (asciiOf "FOO /y FTP/1.0\r\n")
     "FOO /y FTP/1.0\r\n".toList "FOO".toList "/y FTP/1.0\r\n".toList
     "/y".toList "FTP/1.0\r\n".toList "FTP/1.0".toList "\n".toList
     (by decide) (by decide) (by decide) (by decide) (by decide),
   tryFrom_error_priority.2.2.2 (asciiOf "FOO /x HTTP/1.1\r\n") (by decide)⟩

theorem findChar_eq_none (c : Char) (s : List Char) (h : findChar c s = none) :
    c ∉ s := by
  induction s with
  | nil => simp
  | cons x xs ih =>
    simp only [findChar] at h
    by_cases hx : x = c
    · rw [if_pos hx] at h; simp at h
    · rw [if_neg hx] at h
      simp only [Option.map_eq_none'] at h
      intro hmem
      rcases List.mem_cons.mp hmem with h1 | h1
      · exact hx h1.symm
      · exact ih h h1

theorem mem_of_findChar_some (c : Char) (s : List Char) (i : Nat)
    (h : findChar c s = some i) : c ∈ s := by
  induction s generalizing i with
  | nil => simp [findChar] at h
  | cons x xs ih =>
    simp only [findChar] at h
    by_cases hx : x = c
    · exact List.mem_cons.mpr (Or.inl hx.symm)
    · rw [if_neg hx] at h
      obtain ⟨j, hj, -⟩ := Option.map_eq_some'.mp h
      exact List.mem_cons.mpr (Or.inr (ih j hj))

theorem sliceTo_cons (x : Char) (xs : List Char) (n : Nat) (hn : n ≠ 0) :
    sliceTo (x :: xs) n =
      if x.utf8Size ≤ n then (sliceTo xs (n - x.utf8Size)).map (fun t => x :: t)
      else none := by
  rw [sliceTo, if_neg hn]

theorem sliceFrom_cons (x : Char) (xs : List Char) (n : Nat) (hn : n ≠ 0) :
    sliceFrom (x :: xs) n =
      if x.utf8Size ≤ n then sliceFrom xs (n - x.utf8Size)
      else none := by
  rw [sliceFrom, if_neg hn]

theorem findChar_split (c : Char) (hc : c.utf8Size = 1) (s : List Char) (i : Nat)
    (h : findChar c s = some i) :
    sliceTo s i = some (s.takeWhile (fun x => x ≠ c)) ∧
    sliceFrom s (i + 1) = some ((s.dropWhile (fun x => x ≠ c)).tail) := by
  induction s generalizing i with
  | nil => simp [findChar] at h
  | cons x xs ih =>
    simp only [findChar] at h
    by_cases hx : x = c
    · rw [if_pos hx] at h
      obtain rfl : i = 0 := by simpa using h.symm
      subst hx
      constructor
      · simp [sliceTo]
      · rw [sliceFrom_cons x xs 1 (by omega), if_pos (by omega : x.utf8Size ≤ 1), hc]
        simp [List.dropWhile_cons]
        rw [sliceFrom.eq_def]
        simp
    · rw [if_neg hx] at h
      obtain ⟨j, hj, rfl⟩ := Option.map_eq_some'.mp h
      obtain ⟨ihl, ihr⟩ := ih j hj
      have hpos : 1 ≤ x.utf8Size := x.utf8Size_pos
      constructor
      · rw [sliceTo_cons x xs _ (by omega)]
        rw [if_pos (by omega : x.utf8Size ≤ x.utf8Size + j)]
        rw [(by omega : x.utf8Size + j - x.utf8Size = j), ihl]
        simp [List.takeWhile_cons, hx]
      · rw [sliceFrom_cons x xs _ (by omega)]
        rw [if_pos (by omega : x.utf8Size ≤ x.utf8Size + j + 1)]
        rw [(by omega : x.utf8Size + j + 1 - x.utf8Size = j + 1), ihr]
        simp [List.dropWhile_cons, hx]

theorem not_mem_takeWhile_ne (c : Char) (s : List Char) :
    c ∉ s.takeWhile (fun x => x ≠ c) := by
  intro h
  have := List.mem_takeWhile_imp h
  simp at this

theorem tryFrom_ok_inv (buf : List Nat) (req : Request)
    (h : Request.tryFrom buf = .ok (.ok req)) :
    ∃ s t1 r1 t2 r2 t3 r3 m, utf8Decode buf = some s ∧
      get_next_word s = .ok (some (t1, r1)) ∧
      get_next_word r1 = .ok (some (t2, r2)) ∧
      get_next_word r2 = .ok (some (t3, r3)) ∧
      t3 = "HTTP/1.1".toList ∧ methodFromStr t1 = some m ∧
      ((∃ i qs p, findChar '?' t2 = some i ∧ sliceFrom t2 (i + 1) = some qs ∧
          sliceTo t2 i = some p ∧ req = ⟨p, some (queryStringFrom qs), m⟩) ∨
        (findChar '?' t2 = none ∧ req = ⟨t2, none, m⟩)) := by
  unfold Request.tryFrom at h
  cases hd : utf8Decode buf with
  | none => rw [hd] at h; simp at h
  | some s =>
  rw [hd] at h; simp only [] at h
  cases h1 : get_next_word s with
  | panic => rw [h1] at h; simp at h
  | ok o1 =>
  rw [h1] at h
  cases o1 with
  | none => simp at h
  | some p1 =>
  obtain ⟨t1, r1⟩ := p1
  simp only [] at h
  cases h2 : get_next_word r1 with
  | panic => rw [h2] at h; simp at h
  | ok o2 =>
  rw [h2] at h
  cases o2 with
  | none => simp at h
  | some p2 =>
  obtain ⟨t2, r2⟩ := p2
  simp only [] at h
  cases h3 : get_next_word r2 with
  | panic => rw [h3] at h; simp at h
  | ok o3 =>
  rw [h3] at h
  cases o3 with
  | none => simp at h
  | some p3 =>
  obtain ⟨t3, r3⟩ := p3
  simp only [] at h
  by_cases hp : t3 = "HTTP/1.1".toList
  · rw [if_pos hp] at h
    cases hm : methodFromStr t1 with
    | none => rw [hm] at h; simp at h
    | some m =>
      rw [hm] at h; simp only [] at h
      cases hf : findChar '?' t2 with
      | none =>
        rw [hf] at h
        simp only [PanicOr.ok.injEq, Except.ok.injEq] at h
        exact ⟨s, t1, r1, t2, r2, t3, r3, m, rfl, h1, h2, h3, hp, hm,
          Or.inr ⟨hf, h.symm⟩⟩
      | some i =>
        rw [hf] at h; simp only [] at h
        cases hq : sliceFrom t2 (i + 1) with
        | none =>
          rw [hq] at h
          cases hp2 : sliceTo t2 i <;> (rw [hp2] at h; simp at h)
        | some qs =>
          rw [hq] at h
          cases hp2 : sliceTo t2 i with
          | none => rw [hp2] at h; simp at h
          | some p =>
            rw [hp2] at h
            simp only [PanicOr.ok.injEq, Except.ok.injEq] at h
            exact ⟨s, t1, r1, t2, r2, t3, r3, m, rfl, h1, h2, h3, hp, hm,
              Or.inl ⟨i, qs, p, hf, hq, hp2, h.symm⟩⟩
  · rw [if_neg hp] at h; simp at h

/-- Claim C4: every successfully parsed Request has a path free of `?`; and
when the raw path token (the second scanned token) contains a `?`, the path
is the prefix strictly before the first `?` and the substring strictly after
that first `?` is the one handed to the QueryString builder. -/
theorem tryFrom_path_no_question_mark (buf : List Nat) (req : Request)
    (h : Request.tryFrom buf = .ok (.ok req)) :
    '?' ∉ req.path ∧
    (∀ s t1 r1 t2 r2, utf8Decode buf = some s →
      get_next_word s = .ok (some (t1, r1)) →
      get_next_word r1 = .ok (some (t2, r2)) →
      ('?' ∈ t2 →
        req.path = t2.takeWhile (fun x => x ≠ '?') ∧
        req.query_string = some (queryStringFrom ((t2.dropWhile (fun x => x ≠ '?')).tail))) ∧
      ('?' ∉ t2 → req.path = t2 ∧ req.query_string = none)) := by
  obtain ⟨s, t1, r1, t2, r2, t3, r3, m, hd, h1, h2, h3, hp, hm, hrest⟩ :=
    tryFrom_ok_inv buf req h
  rcases hrest with ⟨i, qs, p, hf, hq, hP, rfl⟩ | ⟨hf, rfl⟩
  · obtain ⟨hTo, hFrom⟩ := findChar_split '?' (by decide) t2 i hf
    have hpath : p = t2.takeWhile (fun x => x ≠ '?') := by
      rw [hP] at hTo; exact Option.some.inj hTo
    have hqs : qs = (t2.dropWhile (fun x => x ≠ '?')).tail := by
      rw [hq] at hFrom; exact Option.some.inj hFrom
    constructor
    · simpa [hpath] using not_mem_takeWhile_ne '?' t2
    · intro s' t1' r1' t2' r2' hd' h1' h2'
      have hs : s' = s := by rw [hd] at hd'; exact (Option.some.inj hd').symm
      subst hs
      rw [h1] at h1'
      simp only [PanicOr.ok.injEq, Option.some.injEq, Prod.mk.injEq] at h1'
      obtain ⟨rfl, rfl⟩ := h1'
      rw [h2] at h2'
      simp only [PanicOr.ok.injEq, Option.some.injEq, Prod.mk.injEq] at h2'
      obtain ⟨rfl, rfl⟩ := h2'
      constructor
      · intro _
        exact ⟨hpath, by rw [hqs]⟩
      · intro hno
        exact absurd (mem_of_findChar_some '?' t2 i hf) hno
  · have hnot : '?' ∉ t2 := findChar_eq_none '?' t2 hf
    refine ⟨hnot, ?_⟩
    intro s' t1' r1' t2' r2' hd' h1' h2'
    have hs : s' = s := by rw [hd] at hd'; exact (Option.some.inj hd').symm
    subst hs
    rw [h1] at h1'
    simp only [PanicOr.ok.injEq, Option.some.injEq, Prod.mk.injEq] at h1'
    obtain ⟨rfl, rfl⟩ := h1'
    rw [h2] at h2'
    simp only [PanicOr.ok.injEq, Option.some.injEq, Prod.mk.injEq] at h2'
    obtain ⟨rfl, rfl⟩ := h2'
    exact ⟨fun hmem => absurd hmem hnot, fun _ => ⟨rfl, rfl⟩⟩

/-- Witness for C4 at the concrete input `"GET /a?b=1 HTTP/1.1\r\n"`. -/
theorem tryFrom_path_no_question_mark_witness :
    '?' ∉ (Request.mk "/a".toList (some (queryStringFrom "b=1".toList)) .GET).path ∧
    ((Request.mk "/a".toList (some (queryStringFrom "b=1".toList)) .GET).path =
      "/a?b=1".toList.takeWhile (fun x => x ≠ '?') ∧
     (Request.mk "/a".toList (some (queryStringFrom "b=1".toList)) .GET).query_string =
      some (queryStringFrom (("/a?b=1".toList.dropWhile (fun x => x ≠ '?')).tail))) := by
  have h := tryFrom_path_no_question_mark (asciiOf "GET /a?b=1 HTTP/1.1\r\n")
    (Request.mk "/a".toList (some (queryStringFrom "b=1".toList)) .GET) (by decide)
  refine ⟨h.1, ?_⟩
  exact (h.2 "GET /a?b=1 HTTP/1.1\r\n".toList "GET".toList "/a?b=1 HTTP/1.1\r\n".toList
    "/a?b=1".toList "HTTP/1.1\r\n".toList (by decide) (by decide) (by decide)).1 (by decide)
